import Mathlib

/-!
Verification of the `prototyp-na-patek` RAG research agent.

The frontend TypeScript code (`UploadFile.tsx`, `useChatHistory.ts`, the
`EnhancedApp` component embedded in `README.md`) is embedded directly.
JavaScript strings are modelled as `List Char`; the JS operations
`trim`, `split`, `join`, `toLowerCase` (restricted to ASCII case folding,
which covers every comparison the code performs) and string concatenation
are given executable counterparts below.

The backend agent core (loop controller, query generator, retrieval
fan-out, reranker, reflection engine, answer synthesizer) is not present
in the repository snapshot; those components are modelled from the
specification, each such definition marked `Modelled from the spec:`.
-/

namespace Proto

/-- ASCII case folding of a single character, the fragment of JavaScript
`String.prototype.toLowerCase` exercised by the code (all extension
comparisons are ASCII). Uppercase `A`..`Z` shift down by 32, everything
else is unchanged. -/
def lowerC (c : Char) : Char :=
  if 65 ≤ c.toNat ∧ c.toNat ≤ 90 then Char.ofNat (c.toNat + 32) else c

/-- JavaScript `str.split(sep)` for a single-character separator:
every occurrence of the separator is a boundary and empty segments are
kept, so the result always has at least one element. -/
def splitOnChar (sep : Char) : List Char → List (List Char)
  | [] => [[]]
  | c :: cs =>
    if c = sep then [] :: splitOnChar sep cs
    else
      match splitOnChar sep cs with
      | [] => [[c]]
      | h :: t => (c :: h) :: t

/-- Whitespace recognised by the JavaScript `trim` used on user input
(space, tab, newline, carriage return). -/
def isWS (c : Char) : Bool :=
  c = ' ' || c = '\t' || c = '\n' || c = '\r'

/-- JavaScript `str.trim()`: strip whitespace from both ends. -/
def trimWS (l : List Char) : List Char :=
  ((l.dropWhile isWS).reverse.dropWhile isWS).reverse

/-- Literal helper: the character list of a Lean string literal. -/
def str (s : String) : List Char := s.data

/-- From `UploadFile.tsx` lines 16-31: classify a filename by the last
dot-separated component of its lowercased name. Mirrors
`filename.toLowerCase().split(".").pop() || ""` followed by the
extension membership table. -/
def getFileType (filename : List Char) : List Char :=
  let extension := (splitOnChar '.' (filename.map lowerC)).getLastD []
  if extension ∈ [str "pdf"] then str "PDF"
  else if extension ∈ [str "docx", str "doc"] then str "Word"
  else if extension ∈ [str "pptx", str "ppt"] then str "PowerPoint"
  else if extension ∈ [str "xlsx", str "xls"] then str "Excel"
  else if extension ∈ [str "txt", str "md", str "csv", str "json",
      str "xml", str "html", str "htm", str "log"] then str "Text"
  else str "Unknown"

/-- The classification table of claim C10, keyed by an already-lowercased
extension. -/
def classifyExt (ext : List Char) : List Char :=
  if ext = str "pdf" then str "PDF"
  else if ext = str "docx" ∨ ext = str "doc" then str "Word"
  else if ext = str "pptx" ∨ ext = str "ppt" then str "PowerPoint"
  else if ext = str "xlsx" ∨ ext = str "xls" then str "Excel"
  else if ext = str "txt" ∨ ext = str "md" ∨ ext = str "csv" ∨
      ext = str "json" ∨ ext = str "xml" ∨ ext = str "html" ∨
      ext = str "htm" ∨ ext = str "log" then str "Text"
  else str "Unknown"

/-- Claim C10 reading of `getFileType`: take the final dot-separated
component of the raw filename (the whole filename when there is no dot),
lowercase it, and look it up in the classification table. -/
def getFileTypeSpec (filename : List Char) : List Char :=
  classifyExt (((splitOnChar '.' filename).getLastD []).map lowerC)

theorem char_toNat_ofNat (n : Nat) (h : n.isValidChar) :
    (Char.ofNat n).toNat = n := by
  unfold Char.ofNat
  rw [dif_pos h]
  simp [Char.ofNatAux, Char.toNat, UInt32.toNat, UInt32.ofNatCore]

theorem lowerC_eq_dot_iff (c : Char) : lowerC c = '.' ↔ c = '.' := by
  unfold lowerC
  split
  case isTrue h =>
    constructor
    · intro hc
      exfalso
      have hv : (c.toNat + 32).isValidChar := Or.inl (by omega)
      have h2 := congrArg Char.toNat hc
      rw [char_toNat_ofNat _ hv] at h2
      have h3 : ('.').toNat = 46 := by decide
      omega
    · intro hc
      exfalso
      subst hc
      revert h
      decide
  case isFalse h => exact Iff.rfl

theorem splitOnChar_ne_nil (sep : Char) (l : List Char) :
    splitOnChar sep l ≠ [] := by
  induction l with
  | nil => simp [splitOnChar]
  | cons c cs ih =>
    by_cases hc : c = sep
    · simp [splitOnChar, hc]
    · rcases hsp : splitOnChar sep cs with _ | ⟨h, t⟩
      · exact absurd hsp ih
      · simp [splitOnChar, hc, hsp]

theorem splitOnChar_map (sep : Char) (f : Char → Char)
    (hf : ∀ c, f c = sep ↔ c = sep) (l : List Char) :
    splitOnChar sep (l.map f) = (splitOnChar sep l).map (List.map f) := by
  induction l with
  | nil => simp [splitOnChar]
  | cons c cs ih =>
    by_cases hc : c = sep
    · subst hc
      have hfc := (hf c).mpr rfl
      simp [splitOnChar, hfc, ih]
    · have hfc : ¬ f c = sep := fun h => hc ((hf c).mp h)
      rcases hsp : splitOnChar sep cs with _ | ⟨h, t⟩
      · exact absurd hsp (splitOnChar_ne_nil sep cs)
      · rw [List.map_cons]
        simp [splitOnChar, hc, hfc, hsp, ih]

theorem getLastD_map (g : List Char → List Char) (l : List (List Char))
    (d1 d2 : List Char) (hl : l ≠ []) :
    (l.map g).getLastD d1 = g (l.getLastD d2) := by
  induction l generalizing d1 d2 with
  | nil => exact absurd rfl hl
  | cons x xs ih =>
    rcases hx : xs with _ | ⟨y, ys⟩
    · simp
    · rw [List.map_cons]
      rw [List.getLastD_cons, List.getLastD_cons]
      rw [← hx]
      exact ih (g x) x (by simp [hx])

/-- C10: `getFileType` classifies every filename by the lowercased final
dot-separated extension (the whole lowercased filename when there is no
dot) according to the fixed table, hence case-insensitively. -/
theorem getFileType_matches_spec (filename : List Char) :
    getFileType filename = getFileTypeSpec filename := by
  unfold getFileType getFileTypeSpec
  rw [splitOnChar_map '.' lowerC lowerC_eq_dot_iff filename]
  rw [getLastD_map (List.map lowerC) _ [] [] (splitOnChar_ne_nil '.' filename)]
  unfold classifyExt
  simp only [List.mem_cons, List.mem_singleton, List.not_mem_nil, or_false]

example : getFileType (str "Report.PDF") = str "PDF" := by decide
example : getFileType (str "notes") = str "Unknown" := by decide
example : getFileType (str "PDF") = str "PDF" := by decide
example : getFileType (str "a.b.DocX") = str "Word" := by decide
example : getFileType (str "x.") = str "Unknown" := by decide
example : getFileType (str "data.JSON") = str "Text" := by decide

/-- JavaScript `words.join(sep)` for a single-space separator. -/
def joinSpace (ws : List (List Char)) : List Char :=
  List.intercalate [' '] ws

/-- From `useChatHistory.ts` lines 285-299: the title that
`autoGenerateTitle` submits to `updateConversationTitle` for the given
conversation, or `none` when the guard
`if (!firstMessage || firstMessage.trim().length === 0) return` fires
and no update is performed. Mirrors
`words = firstMessage.trim().split(' ')` and
`words.length <= 8 ? firstMessage.trim() : words.slice(0, 8).join(' ') + '...'`. -/
def autoGenerateTitle (conversationId firstMessage : List Char) :
    Option (List Char × List Char) :=
  if firstMessage = [] ∨ trimWS firstMessage = [] then none
  else
    let words := splitOnChar ' ' (trimWS firstMessage)
    some (conversationId,
      if words.length ≤ 8 then trimWS firstMessage
      else joinSpace (words.take 8) ++ str "...")

/-- Claim C8 reading of `autoGenerateTitle`: an empty or whitespace-only
input performs no update; a trimmed message of at most 8 space-separated
words becomes the title verbatim; otherwise the first 8 words joined by
single spaces followed by three dots. -/
def autoGenerateTitleSpec (conversationId firstMessage : List Char) :
    Option (List Char × List Char) :=
  let trimmed := trimWS firstMessage
  if trimmed = [] then none
  else
    let words := splitOnChar ' ' trimmed
    if words.length ≤ 8 then some (conversationId, trimmed)
    else some (conversationId, joinSpace (words.take 8) ++ str "...")

/-- C8: `autoGenerateTitle` performs no update exactly on empty or
whitespace-only input, titles short messages (at most 8 space-separated
words) with the trimmed message itself, and truncates longer ones to the
first 8 words joined by single spaces plus three trailing dots. -/
theorem autoGenerateTitle_matches_spec (conversationId firstMessage : List Char) :
    autoGenerateTitle conversationId firstMessage =
      autoGenerateTitleSpec conversationId firstMessage := by
  by_cases hm : firstMessage = []
  · subst hm
    simp [autoGenerateTitle, autoGenerateTitleSpec, trimWS]
  · simp only [autoGenerateTitle, autoGenerateTitleSpec, hm, false_or]
    split_ifs <;> rfl

example : autoGenerateTitle (str "c1") (str "  hello world  ") =
    some (str "c1", str "hello world") := by decide
example : autoGenerateTitle (str "c1") (str "   ") = none := by decide
example : autoGenerateTitle (str "c1") (str "a b c d e f g h i j") =
    some (str "c1", str "a b c d e f g h...") := by decide

/-- From the `EnhancedApp` component embedded in `README.md`
(lines 695-733): the `switch (effort)` of `handleSubmit`, with both
variables initialised to `initial_search_query_count = 3` and
`max_research_loops = 1` before the switch. Returns the pair
`(initial_search_query_count, max_research_loops)` submitted to the
backend thread. -/
def handleSubmitParams (effort : List Char) : ℕ × ℕ :=
  if effort = str "low" then (2, 1)
  else if effort = str "medium" then (3, 2)
  else if effort = str "high" then (5, 10)
  else (3, 1)

/-- C7: `handleSubmit` maps effort low to (2, 1), medium to (3, 2) and
high to (5, 10); any other effort value keeps the defaults (3, 1); hence
for every effort the submitted `initial_search_query_count` lies in
[2, 5] and `max_research_loops` lies in [1, 10]. -/
theorem handleSubmit_effort_mapping :
    handleSubmitParams (str "low") = (2, 1) ∧
    handleSubmitParams (str "medium") = (3, 2) ∧
    handleSubmitParams (str "high") = (5, 10) ∧
    (∀ effort, effort ≠ str "low" → effort ≠ str "medium" →
      effort ≠ str "high" → handleSubmitParams effort = (3, 1)) ∧
    (∀ effort, 2 ≤ (handleSubmitParams effort).1 ∧
      (handleSubmitParams effort).1 ≤ 5 ∧
      1 ≤ (handleSubmitParams effort).2 ∧
      (handleSubmitParams effort).2 ≤ 10) := by
  refine ⟨by decide, by decide, by decide, ?_, ?_⟩
  · intro e h1 h2 h3
    simp [handleSubmitParams, h1, h2, h3]
  · intro e
    unfold handleSubmitParams
    split_ifs <;> simp

/-- Witness for C7: the default branch at a concrete non-tier effort
value, plus the bounds at a concrete tier. -/
theorem handleSubmit_effort_mapping_witness :
    handleSubmitParams (str "standard") = (3, 1) ∧
    2 ≤ (handleSubmitParams (str "high")).1 :=
  ⟨handleSubmit_effort_mapping.2.2.2.1 (str "standard")
      (by decide) (by decide) (by decide),
    (handleSubmit_effort_mapping.2.2.2.2 (str "high")).1⟩

/-- Conversation status values of the `Conversation` interface in
`useChatHistory.ts`. -/
inductive ConvStatus where
  | active
  | archived
  | deleted
deriving DecidableEq, Repr

/-- The `Conversation` record of `useChatHistory.ts`. -/
structure Conversation where
  id : List Char
  title : List Char
  created_at : List Char
  updated_at : List Char
  message_count : ℕ
  status : ConvStatus
  summary : Option (List Char)
deriving DecidableEq, Repr

/-- The hook state that `saveMessage` can read and write: the
`currentConversation` and `error` `useState` cells. -/
structure HookState where
  currentConversation : Option Conversation
  error : Option (List Char)
deriving DecidableEq, Repr

/-- Outcome of the `fetch` inside `saveMessage`: the response was ok, the
response was not ok with the given `statusText`, or the fetch itself
rejected with an `Error` carrying the given message. -/
inductive FetchOutcome where
  | ok
  | httpError (statusText : List Char)
  | netError (message : List Char)
deriving DecidableEq, Repr

/-- From `useChatHistory.ts` lines 139-189: the hook state after
`saveMessage(conversationId, message)` resolves, given the fetch outcome
and the current timestamp `now` (the value of
`new Date().toISOString()`). The function is total: every failure is
caught by the surrounding `try`/`catch`, which records the error message
in the `error` state, so the returned promise always resolves. -/
def saveMessage (st : HookState) (conversationId : List Char)
    (outcome : FetchOutcome) (now : List Char) : HookState :=
  match outcome with
  | .ok =>
    match st.currentConversation with
    | some prev =>
      if prev.id = conversationId then
        { st with
          currentConversation := some
            { prev with
              updated_at := now
              message_count := prev.message_count + 1 } }
      else st
    | none => st
  | .httpError s =>
    { st with error := some (str "Failed to save message: " ++ s) }
  | .netError m => { st with error := some m }

/-- Claim C9 as stated: failures are recorded in the error state and the
call resolves; on success the `message_count` of the current conversation
is incremented exactly when its id equals the given conversationId, and
no other conversation state (any field other than `message_count`) is
modified. -/
def ClaimC9 : Prop :=
  ∀ (st : HookState) (cid now : List Char) (outcome : FetchOutcome),
    (∀ s, outcome = .httpError s →
      (saveMessage st cid outcome now).error.isSome = true) ∧
    (∀ m, outcome = .netError m →
      (saveMessage st cid outcome now).error.isSome = true) ∧
    (outcome = .ok → ∀ c c2, st.currentConversation = some c →
      (saveMessage st cid outcome now).currentConversation = some c2 →
      (c.id = cid → c2.message_count = c.message_count + 1) ∧
      (c.id ≠ cid → c2 = c) ∧
      (c2.id = c.id ∧ c2.title = c.title ∧ c2.created_at = c.created_at ∧
        c2.updated_at = c.updated_at ∧ c2.status = c.status ∧
        c2.summary = c.summary))

/-- A concrete conversation used as counterexample material. -/
def conv0 : Conversation :=
  ⟨str "c1", str "T", str "t0", str "t1", 0, ConvStatus.active, none⟩

/-- A concrete hook state holding `conv0` and no error. -/
def st0 : HookState := ⟨some conv0, none⟩

/-- C9 counterexample: on a successful save into the current conversation
the code also overwrites `updated_at` with the current time, so the
claim that no conversation field other than `message_count` changes is
false at the concrete state `st0` with timestamp `t2`. -/
theorem saveMessage_claim_counterexample : ¬ ClaimC9 := by
  intro h
  have h3 := (h st0 (str "c1") (str "t2") FetchOutcome.ok).2.2 rfl conv0
    ⟨str "c1", str "T", str "t0", str "t2", 1, ConvStatus.active, none⟩
    rfl (by decide)
  rcases h3 with ⟨-, -, -, -, -, hupd, -, -⟩
  exact absurd hupd (by decide)

/-- C9 amended: `saveMessage` is a total function of the fetch outcome
(the promise always resolves); an HTTP or network failure only records
the error message, leaving the conversation untouched; a success leaves
the state unchanged unless the current conversation matches the given
id, in which case `message_count` is incremented by exactly one and
`updated_at` is refreshed to the current time, with every other field
unchanged. -/
theorem saveMessage_resolves_and_updates (st : HookState)
    (cid now : List Char) (outcome : FetchOutcome) :
    (∀ s, outcome = .httpError s →
      saveMessage st cid outcome now =
        { st with error := some (str "Failed to save message: " ++ s) }) ∧
    (∀ m, outcome = .netError m →
      saveMessage st cid outcome now = { st with error := some m }) ∧
    (outcome = .ok →
      (st.currentConversation = none →
        saveMessage st cid outcome now = st) ∧
      (∀ c, st.currentConversation = some c → c.id ≠ cid →
        saveMessage st cid outcome now = st) ∧
      (∀ c, st.currentConversation = some c → c.id = cid →
        saveMessage st cid outcome now =
          { st with
            currentConversation := some
              { c with
                updated_at := now
                message_count := c.message_count + 1 } })) := by
  refine ⟨?_, ?_, ?_⟩
  · intro s hs
    subst hs
    rfl
  · intro m hm
    subst hm
    rfl
  · intro hok
    subst hok
    refine ⟨?_, ?_, ?_⟩
    · intro hnone
      simp [saveMessage, hnone]
    · intro c hc hne
      simp [saveMessage, hc, hne]
    · intro c hc heq
      simp [saveMessage, hc, heq]

/-- Witness for C9: the amended theorem applied at the concrete state
`st0`, a matching conversation id and a successful fetch. -/
theorem saveMessage_resolves_and_updates_witness :
    saveMessage st0 (str "c1") FetchOutcome.ok (str "t2") =
      { st0 with
        currentConversation := some
          { conv0 with
            updated_at := str "t2"
            message_count := conv0.message_count + 1 } } :=
  ((saveMessage_resolves_and_updates st0 (str "c1") (str "t2")
      FetchOutcome.ok).2.2 rfl).2.2 conv0 rfl rfl

/-- Modelled from the spec: the two evidence source types of the data
model (web result or document chunk); the backend graph and reranker
sources are not in the snapshot. -/
inductive SourceType where
  | web
  | document
deriving DecidableEq, Repr

/-- Modelled from the spec: `EvidenceItem` — the source type, the dedupe
identity `sid` (the URL for a web result, the chunk id for a document
chunk), the text and the raw first-stage score. -/
structure EvidenceItem where
  sourceType : SourceType
  sid : List Char
  text : List Char
  rawScore : ℚ
deriving DecidableEq, Repr

/-- Modelled from the spec: the source identity by which `evidencePool`
is deduplicated — URL for web, chunk id for document. -/
def sourceKey (e : EvidenceItem) : SourceType × List Char :=
  (e.sourceType, e.sid)

/-- Modelled from the spec: merging one retrieved item into the evidence
pool — an item whose source identity already occurs is dropped, not
re-scored; a new item is appended at the end (append-only order). -/
def mergeItem (pool : List EvidenceItem) (e : EvidenceItem) :
    List EvidenceItem :=
  if pool.any (fun x => sourceKey x = sourceKey e) then pool
  else pool ++ [e]

/-- Modelled from the spec: merging a whole retrieval batch into the
evidence pool, left to right. -/
def mergeBatch (pool : List EvidenceItem) (batch : List EvidenceItem) :
    List EvidenceItem :=
  batch.foldl mergeItem pool

/-- Modelled from the spec: the evidence pool accumulated by merging the
successive iteration batches of a session, starting from the empty
pool. -/
def mergePools (batches : List (List EvidenceItem)) : List EvidenceItem :=
  batches.foldl mergeBatch []

theorem mergeItem_of_mem (pool : List EvidenceItem) (e : EvidenceItem)
    (h : ∃ x ∈ pool, sourceKey x = sourceKey e) :
    mergeItem pool e = pool := by
  unfold mergeItem
  rw [if_pos]
  rw [List.any_eq_true]
  obtain ⟨x, hx, hk⟩ := h
  exact ⟨x, hx, by simpa using hk⟩

theorem mergeItem_keys_nodup (pool : List EvidenceItem) (e : EvidenceItem)
    (h : (pool.map sourceKey).Nodup) :
    ((mergeItem pool e).map sourceKey).Nodup := by
  unfold mergeItem
  split
  · exact h
  case isFalse hn =>
    rw [List.map_append]
    simp only [List.map_singleton]
    rw [List.nodup_append]
    refine ⟨h, List.nodup_singleton _, ?_⟩
    intro k hk
    simp only [List.mem_singleton]
    intro hke
    subst hke
    obtain ⟨x, hx, hxk⟩ := List.mem_map.mp hk
    exact hn (List.any_eq_true.mpr ⟨x, hx, by simpa using hxk⟩)

theorem key_mem_mergeItem (pool : List EvidenceItem) (e : EvidenceItem) :
    sourceKey e ∈ (mergeItem pool e).map sourceKey := by
  unfold mergeItem
  split
  case isTrue hp =>
    obtain ⟨x, hx, hxk⟩ := List.any_eq_true.mp hp
    exact List.mem_map.mpr ⟨x, hx, by simpa using hxk⟩
  case isFalse hn =>
    rw [List.map_append]
    simp

theorem key_mem_mergeItem_mono (pool : List EvidenceItem)
    (e : EvidenceItem) (k : SourceType × List Char)
    (h : k ∈ pool.map sourceKey) :
    k ∈ (mergeItem pool e).map sourceKey := by
  unfold mergeItem
  split
  · exact h
  · rw [List.map_append]
    exact List.mem_append_left _ h

theorem mergeBatch_keys_nodup (batch pool : List EvidenceItem)
    (h : (pool.map sourceKey).Nodup) :
    ((mergeBatch pool batch).map sourceKey).Nodup := by
  induction batch generalizing pool with
  | nil => exact h
  | cons e es ih => exact ih (mergeItem pool e) (mergeItem_keys_nodup pool e h)

theorem key_mem_mergeBatch_mono (batch pool : List EvidenceItem)
    (k : SourceType × List Char) (h : k ∈ pool.map sourceKey) :
    k ∈ (mergeBatch pool batch).map sourceKey := by
  induction batch generalizing pool with
  | nil => exact h
  | cons e es ih =>
    exact ih (mergeItem pool e) (key_mem_mergeItem_mono pool e k h)

theorem key_mem_mergeBatch (batch pool : List EvidenceItem)
    (e : EvidenceItem) (he : e ∈ batch) :
    sourceKey e ∈ (mergeBatch pool batch).map sourceKey := by
  induction batch generalizing pool with
  | nil => exact absurd he (List.not_mem_nil e)
  | cons x xs ih =>
    rcases List.mem_cons.mp he with hex | hexs
    · subst hex
      exact key_mem_mergeBatch_mono xs (mergeItem pool e) _
        (key_mem_mergeItem pool e)
    · exact ih (mergeItem pool x) hexs

theorem mergePools_keys_nodup (batches : List (List EvidenceItem)) :
    ((mergePools batches).map sourceKey).Nodup := by
  unfold mergePools
  have hgen : ∀ (bs : List (List EvidenceItem)) (pool : List EvidenceItem),
      (pool.map sourceKey).Nodup →
      ((bs.foldl mergeBatch pool).map sourceKey).Nodup := by
    intro bs
    induction bs with
    | nil => intro pool h; exact h
    | cons b rest ih =>
      intro pool h
      exact ih (mergeBatch pool b) (mergeBatch_keys_nodup b pool h)
  exact hgen batches [] (by simp)

theorem key_mem_foldl_mono (bs : List (List EvidenceItem))
    (pool : List EvidenceItem) (k : SourceType × List Char)
    (h : k ∈ pool.map sourceKey) :
    k ∈ (bs.foldl mergeBatch pool).map sourceKey := by
  induction bs generalizing pool with
  | nil => exact h
  | cons x xs ih =>
    exact ih (mergeBatch pool x) (key_mem_mergeBatch_mono x pool k h)

theorem key_mem_mergePools (batches : List (List EvidenceItem))
    (b : List EvidenceItem) (e : EvidenceItem)
    (hb : b ∈ batches) (he : e ∈ b) :
    sourceKey e ∈ (mergePools batches).map sourceKey := by
  unfold mergePools
  have hgen : ∀ (bs : List (List EvidenceItem)) (pool : List EvidenceItem),
      b ∈ bs → sourceKey e ∈ (bs.foldl mergeBatch pool).map sourceKey := by
    intro bs
    induction bs with
    | nil => intro pool h; exact absurd h (List.not_mem_nil b)
    | cons x xs ih =>
      intro pool h
      rcases List.mem_cons.mp h with hbx | hbxs
      · subst hbx
        exact key_mem_foldl_mono xs (mergeBatch pool b) _
          (key_mem_mergeBatch b pool e he)
      · exact ih (mergeBatch pool x) hbxs
  exact hgen batches [] hb

/-- C2: evidence-pool deduplication is idempotent — merging an item whose
source identity already occurs leaves the pool unchanged; across any
sequence of batch merges the pool never holds two entries with the same
source identity; and an item retrieved by several queries or iterations
occurs in the final pool exactly once (by identity count). -/
theorem evidencePool_dedup_idempotent :
    (∀ (pool : List EvidenceItem) (e : EvidenceItem),
      (∃ x ∈ pool, sourceKey x = sourceKey e) → mergeItem pool e = pool) ∧
    (∀ batches, ((mergePools batches).map sourceKey).Nodup) ∧
    (∀ batches (b : List EvidenceItem) (e : EvidenceItem),
      b ∈ batches → e ∈ b →
      @List.count (SourceType × List Char) instBEqOfDecidableEq
        (sourceKey e) ((mergePools batches).map sourceKey) = 1) := by
  refine ⟨mergeItem_of_mem, mergePools_keys_nodup, ?_⟩
  intro batches b e hb he
  exact List.count_eq_one_of_mem (mergePools_keys_nodup batches)
    (key_mem_mergePools batches b e hb he)

/-- A concrete document chunk used by the C2 witness. -/
def chunkItem : EvidenceItem :=
  ⟨SourceType.document, str "chunk-7", str "solar capacity", 1⟩

/-- Witness for C2: the same chunk surfaced by two different query
batches ends up in the pool exactly once, and re-merging it is a
no-op. -/
theorem evidencePool_dedup_idempotent_witness :
    mergeItem [chunkItem] chunkItem = [chunkItem] ∧
    @List.count (SourceType × List Char) instBEqOfDecidableEq
      (sourceKey chunkItem)
      ((mergePools [[chunkItem], [chunkItem]]).map sourceKey) = 1 :=
  ⟨evidencePool_dedup_idempotent.1 [chunkItem] chunkItem
      ⟨chunkItem, by simp, rfl⟩,
    evidencePool_dedup_idempotent.2.2 [[chunkItem], [chunkItem]]
      [chunkItem] chunkItem (by simp) (by simp)⟩

/-- Modelled from the spec 4.1: queries of the raw LLM proposal that are
usable — trimmed, non-empty, with duplicates removed. -/
def usableQueries (raw : List (List Char)) : List (List Char) :=
  (((raw.map trimWS).filter (fun q => q ≠ [])).dedup)

/-- Modelled from the spec 4.1: the Query Generator. `llmResult` is the
outcome of the generation call (`none` when the call fails). On failure
or zero usable queries it falls back to a single query equal to the raw
user question; otherwise it returns at most `initialQueryCount` distinct
non-empty queries. -/
def generateQueries (initialQueryCount : ℕ) (question : List Char)
    (llmResult : Option (List (List Char))) : List (List Char) :=
  match llmResult with
  | none => [question]
  | some raw =>
    let usable := usableQueries raw
    if usable = [] then [question]
    else usable.take initialQueryCount

/-- C4: query generation falls back to the raw user question whenever the
generation call fails or yields zero usable queries, never returns an
empty query set (for any positive configured count), and otherwise
returns distinct non-empty queries, between 2 and 5 of them whenever the
configured count lies in [2, 5] and the call produced enough usable
queries. -/
theorem queryGenerator_fallback_nonempty (count : ℕ) (question : List Char)
    (llmResult : Option (List (List Char))) :
    (llmResult = none → generateQueries count question llmResult = [question]) ∧
    (∀ raw, llmResult = some raw → usableQueries raw = [] →
      generateQueries count question llmResult = [question]) ∧
    (1 ≤ count → generateQueries count question llmResult ≠ []) ∧
    (∀ raw, llmResult = some raw → usableQueries raw ≠ [] →
      (generateQueries count question llmResult).Nodup ∧
      (∀ q ∈ generateQueries count question llmResult, q ≠ []) ∧
      (generateQueries count question llmResult).length ≤ count ∧
      (2 ≤ count → count ≤ 5 → count ≤ (usableQueries raw).length →
        2 ≤ (generateQueries count question llmResult).length ∧
        (generateQueries count question llmResult).length ≤ 5)) := by
  refine ⟨?_, ?_, ?_, ?_⟩
  · intro h
    subst h
    rfl
  · intro raw h hz
    subst h
    simp [generateQueries, hz]
  · intro hc
    match llmResult with
    | none => simp [generateQueries]
    | some raw =>
      by_cases hz : usableQueries raw = []
      · simp [generateQueries, hz]
      · have hlen : 0 < (usableQueries raw).length :=
          List.length_pos.mpr hz
        simp only [generateQueries, hz, if_false]
        intro hnil
        have := congrArg List.length hnil
        rw [List.length_take] at this
        simp only [List.length_nil] at this
        omega
  · intro raw h hz
    subst h
    simp only [generateQueries, hz, if_false]
    refine ⟨?_, ?_, ?_, ?_⟩
    · exact (List.nodup_dedup _).sublist (List.take_sublist _ _)
    · intro q hq
      have hq2 : q ∈ usableQueries raw :=
        (List.take_sublist _ _).mem hq
      have hq3 := List.mem_dedup.mp hq2
      exact of_decide_eq_true (List.mem_filter.mp hq3).2
    · rw [List.length_take]
      exact min_le_left _ _
    · intro h2 h5 hle
      rw [List.length_take]
      omega

/-- Witness for C4: a failed call falls back to the question; a call
returning one blank, one duplicate and two usable queries yields exactly
2 distinct non-empty queries at the configured count 2. -/
theorem queryGenerator_fallback_nonempty_witness :
    generateQueries 2 (str "q") none = [str "q"] ∧
    generateQueries 2 (str "q")
      (some [str " a ", str "", str "a", str "b"]) ≠ [] ∧
    2 ≤ (generateQueries 2 (str "q")
      (some [str " a ", str "", str "a", str "b"])).length :=
  ⟨(queryGenerator_fallback_nonempty 2 (str "q") none).1 rfl,
    (queryGenerator_fallback_nonempty 2 (str "q")
      (some [str " a ", str "", str "a", str "b"])).2.2.1 (by decide),
    ((queryGenerator_fallback_nonempty 2 (str "q")
        (some [str " a ", str "", str "a", str "b"])).2.2.2
      [str " a ", str "", str "a", str "b"] rfl (by decide) |>.2.2.2
        (by decide) (by decide) (by decide)).1⟩

/-- Modelled from the spec 4.6: the Answer Synthesizer output — answer
text, the citations (source identities of cited evidence items) and
whether the answer is explicitly caveated as unsupported by retrieved
evidence. -/
structure SynthesizedAnswer where
  text : List Char
  citations : List (SourceType × List Char)
  caveatedUnsupported : Bool
deriving DecidableEq, Repr

/-- Modelled from the spec 4.6: the fixed caveat wording used when the
evidence pool is empty. -/
def emptyPoolCaveat : List Char :=
  str "No retrieved evidence supports this answer to: "

/-- Modelled from the spec 4.6: the Answer Synthesizer. With a non-empty
pool it emits the underlying reasoning call text (`llmText`) citing only
pool items; with an empty pool it still produces an answer, explicitly
caveated as unsupported, and fabricates no citation. -/
def synthesizeAnswer (question : List Char) (pool : List EvidenceItem)
    (llmText : List Char) : SynthesizedAnswer :=
  if pool = [] then
    ⟨emptyPoolCaveat ++ question, [], true⟩
  else
    ⟨llmText, pool.map sourceKey, false⟩

/-- C5: with an empty evidence pool the synthesizer still produces a
non-empty answer, explicitly caveated as unsupported by retrieved
evidence, and cites nothing outside the pool. -/
theorem answerSynthesizer_empty_pool_caveat (question llmText : List Char)
    (pool : List EvidenceItem) (h : pool = []) :
    (synthesizeAnswer question pool llmText).text ≠ [] ∧
    (synthesizeAnswer question pool llmText).caveatedUnsupported = true ∧
    ∀ c ∈ (synthesizeAnswer question pool llmText).citations,
      c ∈ pool.map sourceKey := by
  subst h
  refine ⟨?_, rfl, ?_⟩
  · simp [synthesizeAnswer, emptyPoolCaveat, str]
  · intro c hc
    exact absurd hc (List.not_mem_nil c)

/-- Witness for C5: the synthesizer applied to a concrete question with
an empty pool. -/
theorem answerSynthesizer_empty_pool_caveat_witness :
    (synthesizeAnswer (str "what is X") [] []).text ≠ [] ∧
    (synthesizeAnswer (str "what is X") [] []).caveatedUnsupported = true :=
  ⟨(answerSynthesizer_empty_pool_caveat (str "what is X") [] [] rfl).1,
    (answerSynthesizer_empty_pool_caveat (str "what is X") [] [] rfl).2.1⟩

/-- Modelled from the spec section 6 and the re-ranking documentation
(`part_001`, Retrieval Pipeline Changes; `configuration.py` excerpt in
the system documentation): the configuration surface with its stated
defaults. Field names follow the spec; the backend class names them
`number_of_initial_queries`, `max_research_loops`, `enable_reranking`,
`reranking_strategy`, `reranking_top_k`. -/
structure Configuration where
  initialQueryCount : ℕ := 3
  maxLoops : ℕ := 2
  rerankingEnabled : Bool := true
  rerankingTopK : ℕ := 5
  vectorTopK : ℕ := 10
  vectorScoreThreshold : ℚ := 3 / 10
deriving Repr

/-- The configuration with every field at its documented default. -/
def defaultConfiguration : Configuration := {}

/-- Modelled from the spec 4.2: vector retrieval — matches below the
similarity threshold are discarded and at most `vectorTopK` matches are
returned, each with its raw similarity score. -/
def vectorRetrieve (cfg : Configuration)
    (hits : List (List Char × ℚ)) : List (List Char × ℚ) :=
  (hits.filter (fun m => cfg.vectorScoreThreshold ≤ m.2)).take
    cfg.vectorTopK

/-- Modelled from the spec 4.3: after re-ranking, only the top
`rerankingTopK` candidates of the reordered iteration batch survive into
the evidence pool. -/
def iterationSurvivors (cfg : Configuration)
    (rerankedBatch : List EvidenceItem) : List EvidenceItem :=
  rerankedBatch.take cfg.rerankingTopK

theorem mergeItem_length (pool : List EvidenceItem) (e : EvidenceItem) :
    (mergeItem pool e).length ≤ pool.length + 1 := by
  unfold mergeItem
  split
  · omega
  · simp

theorem mergeBatch_length (batch pool : List EvidenceItem) :
    (mergeBatch pool batch).length ≤ pool.length + batch.length := by
  induction batch generalizing pool with
  | nil => simp [mergeBatch]
  | cons e es ih =>
    calc (mergeBatch pool (e :: es)).length
        = (mergeBatch (mergeItem pool e) es).length := rfl
      _ ≤ (mergeItem pool e).length + es.length := ih (mergeItem pool e)
      _ ≤ pool.length + 1 + es.length :=
          Nat.add_le_add_right (mergeItem_length pool e) _
      _ = pool.length + (e :: es).length := by simp; omega

/-- C6: the default configuration uses vector top-k 10, similarity
threshold 0.3 and re-ranking top-N 5; vector retrieval returns at most
`vectorTopK` matches, all at or above the threshold; and an iteration
appends at most `rerankingTopK` items to the evidence pool. -/
theorem retrieval_defaults_and_topk_bound :
    defaultConfiguration.vectorTopK = 10 ∧
    defaultConfiguration.vectorScoreThreshold = 3 / 10 ∧
    defaultConfiguration.rerankingTopK = 5 ∧
    (∀ cfg hits, (vectorRetrieve cfg hits).length ≤ cfg.vectorTopK ∧
      ∀ m ∈ vectorRetrieve cfg hits, cfg.vectorScoreThreshold ≤ m.2) ∧
    (∀ (cfg : Configuration) (pool rerankedBatch : List EvidenceItem),
      (mergeBatch pool (iterationSurvivors cfg rerankedBatch)).length ≤
        pool.length + cfg.rerankingTopK) := by
  refine ⟨rfl, rfl, rfl, ?_, ?_⟩
  · intro cfg hits
    constructor
    · rw [vectorRetrieve, List.length_take]
      exact min_le_left _ _
    · intro m hm
      have hm2 : m ∈ hits.filter
          (fun m => cfg.vectorScoreThreshold ≤ m.2) :=
        (List.take_sublist _ _).mem hm
      exact of_decide_eq_true (List.mem_filter.mp hm2).2
  · intro cfg pool rerankedBatch
    calc (mergeBatch pool (iterationSurvivors cfg rerankedBatch)).length
        ≤ pool.length + (iterationSurvivors cfg rerankedBatch).length :=
          mergeBatch_length _ _
      _ ≤ pool.length + cfg.rerankingTopK := by
          rw [iterationSurvivors, List.length_take]
          omega

/-- Witness for C6: the bounds at the default configuration and a
concrete two-match retrieval. -/
theorem retrieval_defaults_and_topk_bound_witness :
    (vectorRetrieve defaultConfiguration
      [(str "c1", 1 / 2), (str "c2", 1 / 10)]).length ≤
      defaultConfiguration.vectorTopK ∧
    defaultConfiguration.vectorScoreThreshold ≤ (1 : ℚ) / 2 :=
  ⟨(retrieval_defaults_and_topk_bound.2.2.2.1 defaultConfiguration
      [(str "c1", 1 / 2), (str "c2", 1 / 10)]).1,
    (retrieval_defaults_and_topk_bound.2.2.2.1 defaultConfiguration
      [(str "c1", 1 / 2), (str "c2", 1 / 10)]).2 (str "c1", 1 / 2)
      (by norm_num [vectorRetrieve, defaultConfiguration])⟩

/-- Modelled from the spec 4.5: the loop controller phases. -/
inductive Phase where
  | GENERATING
  | RETRIEVING
  | REFLECTING
  | FINALIZING
deriving DecidableEq, Repr

/-- Modelled from the spec 4.5: the controller state relevant to loop
control — the current phase, the completed-iteration counter and the
immutable loop budget captured at session start. -/
structure LoopState where
  phase : Phase
  loopCount : ℕ
  maxLoops : ℕ
deriving DecidableEq, Repr

/-- Modelled from the spec 4.5: one controller transition. The Reflection
Engine is abstracted as an environment `env` giving the sufficiency
verdict announced at the reflection of each loop index — the theorems
below quantify over every such environment. `GENERATING` and
`RETRIEVING` always advance; at `REFLECTING` the controller finalizes
when the verdict is sufficient or the budget `loopCount + 1 >= maxLoops`
is exhausted, and otherwise requeues, incrementing `loopCount`;
`FINALIZING` is terminal. -/
def loopStep (env : ℕ → Bool) (s : LoopState) : LoopState :=
  match s.phase with
  | Phase.GENERATING => { s with phase := Phase.RETRIEVING }
  | Phase.RETRIEVING => { s with phase := Phase.REFLECTING }
  | Phase.REFLECTING =>
    if env s.loopCount = true ∨ s.loopCount + 1 ≥ s.maxLoops then
      { s with phase := Phase.FINALIZING }
    else
      { s with phase := Phase.RETRIEVING, loopCount := s.loopCount + 1 }
  | Phase.FINALIZING => s

/-- Modelled from the spec 4.5: the controller starts in `GENERATING`
with `loopCount = 0`. -/
def initialLoopState (maxLoops : ℕ) : LoopState :=
  ⟨Phase.GENERATING, 0, maxLoops⟩

/-- The controller state after `n` micro-steps of a session with the
given budget, under reflection environment `env`. One research iteration
is a `RETRIEVING` step followed by a `REFLECTING` step, so `maxLoops + 1`
iterations plus the initial `GENERATING` step take
`2 * (maxLoops + 1) + 1 = 2 * maxLoops + 3` micro-steps. -/
def runLoop (env : ℕ → Bool) (maxLoops n : ℕ) : LoopState :=
  (loopStep env)^[n] (initialLoopState maxLoops)

/-- Termination measure: twice the remaining budget plus a phase weight
that decreases along `GENERATING`, `RETRIEVING`, `REFLECTING`,
`FINALIZING`. -/
def phaseWeight : Phase → ℕ
  | Phase.GENERATING => 3
  | Phase.RETRIEVING => 2
  | Phase.REFLECTING => 1
  | Phase.FINALIZING => 0

/-- Termination measure of a controller state. -/
def loopMeasure (s : LoopState) : ℕ :=
  2 * (s.maxLoops - s.loopCount) + phaseWeight s.phase

theorem loopStep_maxLoops (env : ℕ → Bool) (s : LoopState) :
    (loopStep env s).maxLoops = s.maxLoops := by
  unfold loopStep
  rcases s with ⟨ph, lc, ml⟩
  cases ph <;> (simp; try split) <;> rfl

theorem loopStep_loopCount_le (env : ℕ → Bool) (s : LoopState)
    (h : s.loopCount ≤ s.maxLoops) :
    (loopStep env s).loopCount ≤ (loopStep env s).maxLoops := by
  unfold loopStep
  rcases s with ⟨ph, lc, ml⟩
  cases ph <;> simp at h ⊢
  any_goals exact h
  split
  · simpa using h
  case isFalse hn =>
    simp only [not_or, not_le] at hn
    simp
    omega

theorem loopStep_finalizing (env : ℕ → Bool) (s : LoopState)
    (h : s.phase = Phase.FINALIZING) : loopStep env s = s := by
  unfold loopStep
  rw [h]

theorem loopMeasure_decreases (env : ℕ → Bool) (s : LoopState)
    (h : s.phase ≠ Phase.FINALIZING) :
    loopMeasure (loopStep env s) < loopMeasure s := by
  unfold loopStep loopMeasure
  rcases s with ⟨ph, lc, ml⟩
  cases ph
  case GENERATING => simp [phaseWeight]
  case RETRIEVING => simp [phaseWeight]
  case REFLECTING =>
    simp only
    split
    · simp [phaseWeight]
    case isFalse hn =>
      simp only [not_or, not_le] at hn
      simp only [phaseWeight]
      omega
  case FINALIZING => exact absurd rfl h

theorem loopMeasure_pos (s : LoopState)
    (h : s.phase ≠ Phase.FINALIZING) : 1 ≤ loopMeasure s := by
  unfold loopMeasure
  rcases s with ⟨ph, lc, ml⟩
  cases ph
  case FINALIZING => exact absurd rfl h
  all_goals simp [phaseWeight]

theorem runLoop_succ (env : ℕ → Bool) (maxLoops n : ℕ) :
    runLoop env maxLoops (n + 1) = loopStep env (runLoop env maxLoops n) := by
  unfold runLoop
  rw [Function.iterate_succ_apply']

theorem runLoop_invariant (env : ℕ → Bool) (maxLoops n : ℕ) :
    (runLoop env maxLoops n).maxLoops = maxLoops ∧
    (runLoop env maxLoops n).loopCount ≤ maxLoops := by
  induction n with
  | zero => exact ⟨rfl, Nat.zero_le _⟩
  | succ k ih =>
    rw [runLoop_succ]
    constructor
    · rw [loopStep_maxLoops, ih.1]
    · have h2 := loopStep_loopCount_le env (runLoop env maxLoops k)
        (by rw [ih.1]; exact ih.2)
      rwa [loopStep_maxLoops, ih.1] at h2

theorem runLoop_measure_bound (env : ℕ → Bool) (maxLoops n : ℕ) :
    (runLoop env maxLoops n).phase = Phase.FINALIZING ∨
    loopMeasure (runLoop env maxLoops n) + n ≤ 2 * maxLoops + 3 := by
  induction n with
  | zero =>
    right
    unfold runLoop loopMeasure initialLoopState phaseWeight
    simp
  | succ k ih =>
    rcases ih with hfin | hbound
    · left
      rw [runLoop_succ, loopStep_finalizing env _ hfin]
      exact hfin
    · by_cases hfin : (runLoop env maxLoops k).phase = Phase.FINALIZING
      · left
        rw [runLoop_succ, loopStep_finalizing env _ hfin]
        exact hfin
      · right
        have hdec := loopMeasure_decreases env _ hfin
        rw [runLoop_succ]
        omega

theorem runLoop_reaches_finalizing (env : ℕ → Bool) (maxLoops : ℕ) :
    (runLoop env maxLoops (2 * maxLoops + 3)).phase = Phase.FINALIZING := by
  rcases runLoop_measure_bound env maxLoops (2 * maxLoops + 3) with h | h
  · exact h
  · by_contra hne
    have h1 := loopMeasure_pos _ hne
    omega

/-- C1: under every reflection behaviour `env` and every budget, the loop
counter never exceeds `maxLoops` at any point of the run; the controller
reaches the terminal `FINALIZING` phase within `maxLoops + 1` research
iterations, i.e. `2 * maxLoops + 3` micro-steps; and whenever the
controller is in `REFLECTING` with a sufficient verdict or with
`loopCount + 1 >= maxLoops`, the next phase is `FINALIZING`. -/
theorem loopController_budget_termination (env : ℕ → Bool) (maxLoops : ℕ) :
    (∀ n, (runLoop env maxLoops n).loopCount ≤ maxLoops) ∧
    (runLoop env maxLoops (2 * maxLoops + 3)).phase = Phase.FINALIZING ∧
    (∀ s : LoopState, s.phase = Phase.REFLECTING →
      (env s.loopCount = true ∨ s.loopCount + 1 ≥ s.maxLoops) →
      (loopStep env s).phase = Phase.FINALIZING) := by
  refine ⟨?_, runLoop_reaches_finalizing env maxLoops, ?_⟩
  · intro n
    exact (runLoop_invariant env maxLoops n).2
  · intro st hph hcond
    unfold loopStep
    rw [hph]
    rw [if_pos hcond]

/-- Witness for C1: a never-sufficient reflection environment with budget
2 still finalizes within 7 micro-steps, respects the budget, and a
budget-exhausted reflection forces finalization. -/
theorem loopController_budget_termination_witness :
    (runLoop (fun _ => false) 2 7).phase = Phase.FINALIZING ∧
    (runLoop (fun _ => false) 2 5).loopCount ≤ 2 ∧
    (loopStep (fun _ => false) ⟨Phase.REFLECTING, 1, 2⟩).phase =
      Phase.FINALIZING :=
  ⟨(loopController_budget_termination (fun _ => false) 2).2.1,
    (loopController_budget_termination (fun _ => false) 2).1 5,
    (loopController_budget_termination (fun _ => false) 2).2.2
      ⟨Phase.REFLECTING, 1, 2⟩ rfl (Or.inr (by decide))⟩

/-- Modelled from the spec 4.3: a re-ranking candidate with both score
components already normalized to [0, 1] — the first-stage score and the
relevance-model (cross-encoder) score. The fallback for an undefined
model score is outside the scope of claim C3 and is not modelled. -/
structure RerankCandidate where
  normalizedRawScore : ℚ
  modelScore : ℚ
deriving DecidableEq, Repr

/-- Modelled from the spec 4.3 and the re-ranking documentation: the
hybrid score with the default weights w1 = 0.3 and w2 = 0.7. -/
def rerankScore (c : RerankCandidate) : ℚ :=
  3 / 10 * c.normalizedRawScore + 7 / 10 * c.modelScore

/-- A candidate tagged with its first-seen position in the original
batch, used to break ties. -/
structure RankedCandidate where
  cand : RerankCandidate
  idx : ℕ
deriving DecidableEq, Repr

/-- The hybrid output ordering: strictly higher `rerankScore` first, and
among equal scores the smaller original batch position first. -/
def rerankRel (a b : RankedCandidate) : Prop :=
  rerankScore b.cand < rerankScore a.cand ∨
    (rerankScore a.cand = rerankScore b.cand ∧ a.idx ≤ b.idx)

instance : DecidableRel rerankRel := fun a b => by
  unfold rerankRel
  infer_instance

instance : IsTotal RankedCandidate rerankRel where
  total a b := by
    unfold rerankRel
    rcases lt_trichotomy (rerankScore a.cand) (rerankScore b.cand) with
      h | h | h
    · exact Or.inr (Or.inl h)
    · rcases Nat.le_total a.idx b.idx with hi | hi
      · exact Or.inl (Or.inr ⟨h, hi⟩)
      · exact Or.inr (Or.inr ⟨h.symm, hi⟩)
    · exact Or.inl (Or.inl h)

instance : IsTrans RankedCandidate rerankRel where
  trans a b c hab hbc := by
    unfold rerankRel at hab hbc ⊢
    rcases hab with hab | ⟨hab, hia⟩ <;> rcases hbc with hbc | ⟨hbc, hib⟩
    · exact Or.inl (lt_trans hbc hab)
    · exact Or.inl (hbc ▸ hab)
    · exact Or.inl (hab ▸ hbc)
    · exact Or.inr ⟨hab.trans hbc, le_trans hia hib⟩

/-- Tag each candidate of a batch with its first-seen position. -/
def tagIdx (batch : List RerankCandidate) : List RankedCandidate :=
  batch.enum.map (fun p => ⟨p.2, p.1⟩)

/-- Modelled from the spec 4.3: the hybrid reranker — score every tagged
candidate by `rerankScore` and reorder the batch descending by it, ties
broken by the original first-seen batch order. -/
def hybridRerank (batch : List RerankCandidate) : List RankedCandidate :=
  List.insertionSort rerankRel (tagIdx batch)

/-- C3: the hybrid rerank score is 0.3 times the normalized raw score
plus 0.7 times the model score, and lies in [0, 1] whenever both
components do; the reranked output is a permutation of the tagged input
whose original positions stay pairwise distinct, ordered so that each
item strictly beats the next by `rerankScore` or ties with it and
precedes it in the original batch. -/
theorem hybridReranker_bounds_and_order (batch : List RerankCandidate) :
    (∀ c : RerankCandidate, rerankScore c =
      3 / 10 * c.normalizedRawScore + 7 / 10 * c.modelScore) ∧
    (∀ c : RerankCandidate,
      0 ≤ c.normalizedRawScore → c.normalizedRawScore ≤ 1 →
      0 ≤ c.modelScore → c.modelScore ≤ 1 →
      0 ≤ rerankScore c ∧ rerankScore c ≤ 1) ∧
    List.Sorted rerankRel (hybridRerank batch) ∧
    (hybridRerank batch).Perm (tagIdx batch) ∧
    ((hybridRerank batch).map RankedCandidate.idx).Nodup := by
  refine ⟨fun c => rfl, ?_, ?_, ?_, ?_⟩
  · intro c h0 h1 h2 h3
    unfold rerankScore
    constructor <;> nlinarith
  · exact List.sorted_insertionSort rerankRel (tagIdx batch)
  · exact List.perm_insertionSort rerankRel (tagIdx batch)
  · have hperm := (List.perm_insertionSort rerankRel (tagIdx batch)).map
      RankedCandidate.idx
    unfold hybridRerank
    rw [List.Perm.nodup_iff hperm]
    unfold tagIdx
    rw [List.map_map]
    have : (RankedCandidate.idx ∘ fun p : ℕ × RerankCandidate =>
        RankedCandidate.mk p.2 p.1) = Prod.fst := rfl
    rw [this, List.enum_map_fst]
    exact List.nodup_range _

/-- Witness for C3: the score bound discharged at a concrete candidate,
together with the computed ordering of a concrete two-element batch. -/
theorem hybridReranker_bounds_and_order_witness :
    (0 ≤ rerankScore ⟨1 / 2, 1⟩ ∧ rerankScore ⟨1 / 2, 1⟩ ≤ 1) ∧
    List.Sorted rerankRel (hybridRerank [⟨1 / 2, 1⟩, ⟨1, 1 / 4⟩]) :=
  ⟨(hybridReranker_bounds_and_order []).2.1 ⟨1 / 2, 1⟩
      (by norm_num) (by norm_num) (by norm_num) (by norm_num),
    (hybridReranker_bounds_and_order [⟨1 / 2, 1⟩, ⟨1, 1 / 4⟩]).2.2.1⟩

end Proto
